import Mathlib

/-
  Verification of the staking-pool reward accounting core
  (contracts/staking/contracts/src/staking_pools/MixinStakingPoolRewards.sol).

  The embedding models the storage slice of a single pool:
  `delegatedStakeToPoolByOwner[member][poolId]` becomes a function from member
  addresses (modelled as Nat) to stake records, and `rewardRatioSums` becomes a
  function from epoch numbers to numerator/denominator pairs (a Solidity
  mapping read at an unset key yields the zero struct).

  Solidity 0.5 semantics embedded here:
  - `+`, `-`, `*` on uint256 wrap modulo 2^256 (the contract declares
    `using LibSafeMath for uint256` but uses the raw operators);
  - `/` truncates toward zero and reverts on a zero divisor, so fallible
    computations return Option, with `none` standing for a revert.
-/

/-- Modulus of uint256 arithmetic. -/
def WORD : ℕ := 2 ^ 256

/-- Wrapping uint256 multiplication. -/
def wmul (a b : ℕ) : ℕ := (a * b) % WORD

/-- Wrapping uint256 addition. -/
def wadd (a b : ℕ) : ℕ := (a + b) % WORD

/-- Wrapping uint256 subtraction: underflow wraps around, as the raw `-`
operator does in Solidity 0.5. -/
def wsub (a b : ℕ) : ℕ := (a % WORD + (WORD - b % WORD)) % WORD

/-- `IStructs.ND`: a cumulative reward-to-stake ratio stored as a
numerator/denominator pair.  The mapping default (unset epoch) is
`⟨0, 0⟩`. -/
structure ND where
  numerator : ℕ
  denominator : ℕ

/-- `IStructs.StoredStakeBalance`: per-(pool, member) stake record with the
epoch of the last synchronization, the stake in effect through that epoch,
and the stake in effect afterwards. -/
structure StoredStakeBalance where
  lastStored : ℕ
  current : ℕ
  next : ℕ

/-- One leg of `computeRewardBalanceOfStakingPoolMember` (the `current` and
`next` blocks of the source are textually identical up to the stake field):
cross-multiplied ratio delta, then two truncating divisions.  A zero
denominator (unset ledger entry) makes a division revert, hence `none`. -/
def legReward (stake : ℕ) (beginRatio endRatio : ND) : Option ℕ :=
  if beginRatio.denominator = 0 ∨ endRatio.denominator = 0 then none
  else
    let rewardRatioN :=
      wsub (wmul endRatio.numerator beginRatio.denominator)
           (wmul beginRatio.numerator endRatio.denominator)
    some ((wmul stake (rewardRatioN / beginRatio.denominator)) / endRatio.denominator)

/-- Core of `computeRewardBalanceOfStakingPoolMember`, abstracted over the
pieces of contract storage it reads: the current epoch, the member's stake
record, and the `rewardRatioSums` ledger. -/
def computeCore (currentEpoch : ℕ) (delegatedStake : StoredStakeBalance)
    (rewardRatioSums : ℕ → ND) : Option ℕ :=
  if currentEpoch = 0 ∨ delegatedStake.lastStored = currentEpoch then some 0
  else
    match
      (if delegatedStake.current ≠ 0 then
        legReward delegatedStake.current
          (rewardRatioSums (wsub delegatedStake.lastStored 1))
          (rewardRatioSums delegatedStake.lastStored)
      else some 0),
      legReward delegatedStake.next
        (rewardRatioSums delegatedStake.lastStored)
        (rewardRatioSums (currentEpoch - 1)) with
    | some cur, some nxt => some (wadd cur nxt)
    | _, _ => none

/-- The storage slice of one pool, plus the pool aggregate and the reward
vault presence flag checked by `syncRewardBalanceOfStakingPoolMember`'s
`require(address(rewardVault) != address(0))`. -/
structure State where
  currentEpoch : ℕ
  delegatedStakeToPoolByOwner : ℕ → StoredStakeBalance
  rewardRatioSums : ℕ → ND
  totalDelegatedStake : ℕ
  rewardVaultSet : Bool

/-- `computeRewardBalanceOfStakingPoolMember(poolId, member)` on the state of
the fixed pool. -/
def computeRewardBalanceOfStakingPoolMember (s : State) (member : ℕ) : Option ℕ :=
  computeCore s.currentEpoch (s.delegatedStakeToPoolByOwner member) s.rewardRatioSums

/-- `syncRewardBalanceOfStakingPoolMember(poolId, member)`: compute the
balance, return silently when it is zero, otherwise require the reward vault
and emit the external `transferMemberBalanceToEthVault` call.  The returned
pair is the post-state together with the emitted transfer amount (if any);
`none` is a revert.  The source writes no storage after the transfer (its
final comment "Remove the reference" is not followed by any code). -/
def syncRewardBalanceOfStakingPoolMember (s : State) (member : ℕ) :
    Option (State × Option ℕ) :=
  match computeRewardBalanceOfStakingPoolMember s member with
  | none => none
  | some balance =>
    if balance = 0 then some (s, none)
    else if s.rewardVaultSet = false then none
    else some (s, some balance)

/-- Modelled from the spec: the "nearest previously-set cumulative ratio"
used by EpochCreditor as `priorCumulativeRatio` (section 4.4); an epoch is
set exactly when its stored denominator is nonzero, and when no earlier
epoch is set the prior ratio is the zero ratio `0/1`.  (EpochCreditor is not
part of src/.) -/
def priorRatio (rewardRatioSums : ℕ → ND) : ℕ → ND
  | 0 => ⟨0, 1⟩
  | e + 1 =>
    if (rewardRatioSums e).denominator ≠ 0 then rewardRatioSums e
    else priorRatio rewardRatioSums e

/-- Modelled from the spec: EpochCreditor's
`creditReward(totalRewardForPool, currentEpoch)` (section 4.4): fails on a
duplicate write for the current epoch (DuplicateEpochWrite, section 7),
writes nothing when `totalDelegatedStake = 0`, and otherwise records
`priorCumulativeRatio + totalRewardForPool / totalDelegatedStake` as an
exact fraction at the current epoch.  (EpochCreditor is not part of
src/.) -/
def creditReward (s : State) (totalRewardForPool : ℕ) : Option State :=
  if (s.rewardRatioSums s.currentEpoch).denominator ≠ 0 then none
  else if s.totalDelegatedStake = 0 then some s
  else
    let prior := priorRatio s.rewardRatioSums s.currentEpoch
    let newRatio : ND :=
      ⟨prior.numerator * s.totalDelegatedStake + totalRewardForPool * prior.denominator,
       prior.denominator * s.totalDelegatedStake⟩
    some { s with rewardRatioSums := Function.update s.rewardRatioSums s.currentEpoch newRatio }

/-- Modelled from the spec: DelegationTracker's
`delegate(member, amount, currentEpoch)` (section 4.2): first settle the
member through the settlement routine of the source
(`syncRewardBalanceOfStakingPoolMember`), then adjust `nextStakeAmount` by
the amount, set `lastStoredEpoch` to the current epoch, and adjust the pool
aggregate by the same delta.  (DelegationTracker is not part of src/.) -/
def delegate (s : State) (member amount : ℕ) : Option (State × Option ℕ) :=
  match syncRewardBalanceOfStakingPoolMember s member with
  | none => none
  | some (s1, transfer) =>
    let rec0 := s1.delegatedStakeToPoolByOwner member
    let rec1 : StoredStakeBalance :=
      { rec0 with next := rec0.next + amount, lastStored := s1.currentEpoch }
    some ({ s1 with
              delegatedStakeToPoolByOwner :=
                Function.update s1.delegatedStakeToPoolByOwner member rec1,
              totalDelegatedStake := s1.totalDelegatedStake + amount },
          transfer)

/-- Modelled from the spec: the external epoch clock (section 6) advancing
by one; the core treats the current epoch as an input that only grows. -/
def advanceEpoch (s : State) : State := { s with currentEpoch := s.currentEpoch + 1 }

/-- An operation of the event stream the conservation property quantifies
over (delegate / creditReward / settle, plus the external epoch clock). -/
inductive Op where
  | delegateOp (member amount : ℕ)
  | creditRewardOp (amount : ℕ)
  | settleOp (member : ℕ)
  | advanceEpochOp

/-- Execute one operation, threading the two audit tallies of the
conservation property: total amount transferred to the payout sink on
behalf of members, and total reward ever passed to `creditReward`. -/
def execOp : State × ℕ × ℕ → Op → Option (State × ℕ × ℕ)
  | (s, paid, credited), Op.delegateOp m a =>
    (delegate s m a).map (fun r => (r.1, paid + (r.2.getD 0), credited))
  | (s, paid, credited), Op.creditRewardOp a =>
    (creditReward s a).map (fun s1 => (s1, paid, credited + a))
  | (s, paid, credited), Op.settleOp m =>
    (syncRewardBalanceOfStakingPoolMember s m).map
      (fun r => (r.1, paid + (r.2.getD 0), credited))
  | (s, paid, credited), Op.advanceEpochOp => some (advanceEpoch s, paid, credited)

/-- Execute a sequence of operations from a starting configuration. -/
def execTrace (start : State × ℕ × ℕ) : List Op → Option (State × ℕ × ℕ)
  | [] => some start
  | op :: ops => (execOp start op).bind (fun st => execTrace st ops)

/-- The all-zero starting state: epoch 0, no stake records, an empty ratio
ledger (every epoch unset), zero aggregate stake, reward vault configured. -/
def initialState : State :=
  ⟨0, fun _ => ⟨0, 0, 0⟩, fun _ => ⟨0, 0⟩, 0, true⟩

/-- The operation sequence of the conservation counterexample: member 0
delegates 100 at epoch 0, rewards of 500 and 1000 are credited at epochs 0
and 1, and at epoch 2 member 0 is settled twice. -/
def doubleSettleTrace : List Op :=
  [Op.delegateOp 0 100, Op.creditRewardOp 500, Op.advanceEpochOp,
   Op.creditRewardOp 1000, Op.advanceEpochOp, Op.settleOp 0, Op.settleOp 0]

/-- A state at epoch 2 in which member 0 has 100 units of next stake
recorded at epoch 0, and the ledger holds cumulative ratios 0/1 at epoch 0
and 10/1 at epoch 1, so the member's unsettled reward is 1000. -/
def exState : State :=
  ⟨2, fun _ => ⟨0, 0, 100⟩,
   fun e => if e = 0 then ⟨0, 1⟩ else if e = 1 then ⟨10, 1⟩ else ⟨0, 0⟩,
   100, true⟩

/-- The spec's section-8 scenario read as charitably as possible: epoch 3,
member 0 delegated 100 at epoch 1 (so `lastStored = 1`, `next = 100`), the
cumulative ratio is 10/1 at epoch 2 and 0/1 at epochs 0 and 1 (granting the
scenario's "ratio(epoch1) = 0" as a set ledger entry). -/
def scenarioState : State :=
  ⟨3, fun _ => ⟨1, 0, 100⟩,
   fun e => if e = 2 then ⟨10, 1⟩ else if e ≤ 1 then ⟨0, 1⟩ else ⟨0, 0⟩,
   100, true⟩

/-- A state whose ledger has a set ratio at epoch 0 (5/1) and at epoch 2
(10/1) but nothing at epoch 1, while member 0's record spans epoch 1: a
carry-forward value for the unset epoch 1 exists (namely 5/1 from epoch 0). -/
def unsetState : State :=
  ⟨3, fun _ => ⟨1, 100, 100⟩,
   fun e => if e = 0 then ⟨5, 1⟩ else if e = 2 then ⟨10, 1⟩ else ⟨0, 0⟩,
   100, true⟩

/-- The exact rational-arithmetic reward for the same stake amounts and
ratio snapshots that `computeRewardBalanceOfStakingPoolMember` reads: each
leg contributes the stake times the exact difference of the two cumulative
ratios.  This is the ideal value of the spec's rounding-policy sentence,
against which the truncating integer computation is compared. -/
def exactRewardQ (currentEpoch : ℕ) (delegatedStake : StoredStakeBalance)
    (rewardRatioSums : ℕ → ND) : ℚ :=
  (delegatedStake.current : ℚ) *
      (((rewardRatioSums delegatedStake.lastStored).numerator : ℚ) /
          ((rewardRatioSums delegatedStake.lastStored).denominator : ℚ)
        - ((rewardRatioSums (wsub delegatedStake.lastStored 1)).numerator : ℚ) /
          ((rewardRatioSums (wsub delegatedStake.lastStored 1)).denominator : ℚ))
    + (delegatedStake.next : ℚ) *
      (((rewardRatioSums (currentEpoch - 1)).numerator : ℚ) /
          ((rewardRatioSums (currentEpoch - 1)).denominator : ℚ)
        - ((rewardRatioSums delegatedStake.lastStored).numerator : ℚ) /
          ((rewardRatioSums delegatedStake.lastStored).denominator : ℚ))

/-- A state on which the truncating computation overpays relative to the
exact rational value: every snapshot read is set, but the stored cumulative
ratio decreases from epoch 0 (1/1) to epoch 1 (0/1), so the raw subtraction
wraps around 2^256 for member 0's one unit of current stake. -/
def cexState : State :=
  ⟨2, fun _ => ⟨1, 1, 0⟩, fun e => if e = 0 then ⟨1, 1⟩ else ⟨0, 1⟩, 1, true⟩

/-- C1: conservation fails on the code.  Along `doubleSettleTrace` the total
credited reward is 1500 but 2000 is transferred to the payout sink, because
the settlement routine of the source never updates the member's record and
the second settle pays the same 1000 again. -/
theorem conservation_violated_on_doubleSettleTrace :
    (execTrace (initialState, 0, 0) doubleSettleTrace).map (fun r => (r.2.1, r.2.2))
      = some (2000, 1500) ∧ 1500 < 2000 := by
  exact ⟨rfl, by decide⟩

/-- C2: at `exState` the computed reward is 1000 and
`syncRewardBalanceOfStakingPoolMember` transfers exactly 1000, but it
returns the state completely unchanged: the member's `lastStored` is still
0 and is not set to the current epoch 2, and `current` is not collapsed to
`next`, contradicting part (b) of the claim. -/
theorem sync_does_not_update_record :
    syncRewardBalanceOfStakingPoolMember exState 0 = some (exState, some 1000) ∧
    (exState.delegatedStakeToPoolByOwner 0).lastStored ≠ exState.currentEpoch ∧
    (exState.delegatedStakeToPoolByOwner 0).current ≠ (exState.delegatedStakeToPoolByOwner 0).next := by
  exact ⟨rfl, by decide, by decide⟩

/-- C3: a second settle right after a first one is not a no-op.  The first
call at `exState` pays 1000 and leaves the state equal to `exState`, and on
that same state the recomputed reward is again 1000, not 0, so the second
call pays 1000 once more. -/
theorem double_settle_pays_twice :
    syncRewardBalanceOfStakingPoolMember exState 0 = some (exState, some 1000) ∧
    computeRewardBalanceOfStakingPoolMember exState 0 = some 1000 ∧
    (some 1000 : Option ℕ) ≠ some 0 := by
  exact ⟨rfl, rfl, by decide⟩

/-- C4: no carry-forward is performed for an unset ratio epoch.  In
`unsetState` the nearest previously-set ratio (5/1 at epoch 0) exists, yet
the computation reads the raw zero struct at the unset epoch 1 and the
division by its zero denominator makes the call fail instead of carrying
the ratio forward. -/
theorem unset_epoch_reverts_instead_of_carry_forward :
    computeRewardBalanceOfStakingPoolMember unsetState 0 = none ∧
    (unsetState.rewardRatioSums 0).denominator ≠ 0 ∧
    (unsetState.rewardRatioSums 1).denominator = 0 := by
  exact ⟨rfl, by decide, by decide⟩

/-- C5: in the spec's scenario (granting its "ratio(epoch1)=0" as a set
ledger entry) the settle call at epoch 3 does pay out exactly 1000, but the
member's `lastStored` stays at 1 instead of becoming 3, because the source's
settlement routine writes nothing back. -/
theorem scenario_pays_but_does_not_store_epoch :
    syncRewardBalanceOfStakingPoolMember scenarioState 0 = some (scenarioState, some 1000) ∧
    (scenarioState.delegatedStakeToPoolByOwner 0).lastStored = 1 ∧
    scenarioState.currentEpoch = 3 := by
  exact ⟨rfl, by decide, by decide⟩

/-- C6: when the current epoch is 0, or the member's record was last stored
in the current epoch, the computed reward balance is 0. -/
theorem compute_zero_at_epoch_zero_or_fresh (s : State) (member : ℕ)
    (h : s.currentEpoch = 0 ∨
         (s.delegatedStakeToPoolByOwner member).lastStored = s.currentEpoch) :
    computeRewardBalanceOfStakingPoolMember s member = some 0 := by
  unfold computeRewardBalanceOfStakingPoolMember computeCore
  exact if_pos h

/-- Witness for C6 at the initial state (epoch 0). -/
theorem compute_zero_at_epoch_zero_or_fresh_witness :
    computeRewardBalanceOfStakingPoolMember initialState 0 = some 0 :=
  compute_zero_at_epoch_zero_or_fresh initialState 0 (Or.inl rfl)

/-- A leg fails exactly by division by zero: an unset snapshot on either
side (zero stored denominator) makes it revert. -/
theorem legReward_none_of_unset {stake : ℕ} {beginRatio endRatio : ND}
    (h : beginRatio.denominator = 0 ∨ endRatio.denominator = 0) :
    legReward stake beginRatio endRatio = none := by
  unfold legReward
  rw [if_pos h]

/-- C8: when the epoch-0 / fresh-record guard does not fire, the `next` leg
is evaluated unconditionally (no guard on the next stake being 0), so the
call fails with a division by zero as soon as any ratio snapshot it reads
has a zero denominator: either snapshot of the `next` leg, or — when the
current stake is nonzero — either snapshot of the `current` leg. -/
theorem compute_fails_on_unset_snapshot (s : State) (member : ℕ)
    (h0 : s.currentEpoch ≠ 0)
    (h1 : (s.delegatedStakeToPoolByOwner member).lastStored ≠ s.currentEpoch)
    (h2 : ((s.delegatedStakeToPoolByOwner member).current ≠ 0 ∧
            ((s.rewardRatioSums (wsub (s.delegatedStakeToPoolByOwner member).lastStored 1)).denominator = 0 ∨
             (s.rewardRatioSums (s.delegatedStakeToPoolByOwner member).lastStored).denominator = 0)) ∨
          (s.rewardRatioSums (s.delegatedStakeToPoolByOwner member).lastStored).denominator = 0 ∨
          (s.rewardRatioSums (s.currentEpoch - 1)).denominator = 0) :
    computeRewardBalanceOfStakingPoolMember s member = none := by
  unfold computeRewardBalanceOfStakingPoolMember computeCore
  rw [if_neg (by push_neg; exact ⟨h0, h1⟩)]
  rcases h2 with ⟨hc, hden⟩ | hden
  · rw [if_pos hc, legReward_none_of_unset hden]
  · rw [legReward_none_of_unset hden]
    cases hcur : (if (s.delegatedStakeToPoolByOwner member).current ≠ 0 then
        legReward (s.delegatedStakeToPoolByOwner member).current
          (s.rewardRatioSums (wsub (s.delegatedStakeToPoolByOwner member).lastStored 1))
          (s.rewardRatioSums (s.delegatedStakeToPoolByOwner member).lastStored)
      else some 0) <;> rfl

/-- Witness for C8: at epoch 2, a member record stored at epoch 1 with zero
current and zero next stake, over a completely unset ledger, still makes
the computation fail. -/
theorem compute_fails_on_unset_snapshot_witness :
    computeRewardBalanceOfStakingPoolMember
      ⟨2, fun _ => ⟨1, 0, 0⟩, fun _ => ⟨0, 0⟩, 0, true⟩ 0 = none :=
  compute_fails_on_unset_snapshot ⟨2, fun _ => ⟨1, 0, 0⟩, fun _ => ⟨0, 0⟩, 0, true⟩ 0
    (by decide) (by decide) (Or.inr (Or.inl rfl))

/-- C9: whenever `syncRewardBalanceOfStakingPoolMember` returns, the post
state equals the pre state — the stake record, the ratio ledger, the pool
aggregate and the vault flag are all untouched — and the only effect is the
external transfer: none when the computed balance is 0, and exactly the
computed balance otherwise. -/
theorem sync_frame (s : State) (member : ℕ) (s' : State) (transfer : Option ℕ)
    (h : syncRewardBalanceOfStakingPoolMember s member = some (s', transfer)) :
    s' = s ∧
    ((computeRewardBalanceOfStakingPoolMember s member = some 0 ∧ transfer = none) ∨
     (∃ b, b ≠ 0 ∧ computeRewardBalanceOfStakingPoolMember s member = some b ∧
           transfer = some b)) := by
  cases hc : computeRewardBalanceOfStakingPoolMember s member with
  | none =>
    have h2 : (none : Option (State × Option ℕ)) = some (s', transfer) := by
      rw [← h]; unfold syncRewardBalanceOfStakingPoolMember; rw [hc]
    cases h2
  | some b =>
    have h2 : (if b = 0 then some (s, (none : Option ℕ))
               else if s.rewardVaultSet = false then none
               else some (s, some b)) = some (s', transfer) := by
      rw [← h]; unfold syncRewardBalanceOfStakingPoolMember; rw [hc]
    by_cases hb : b = 0
    · subst hb
      rw [if_pos rfl] at h2
      simp only [Option.some.injEq, Prod.mk.injEq] at h2
      exact ⟨h2.1.symm, Or.inl ⟨rfl, h2.2.symm⟩⟩
    · rw [if_neg hb] at h2
      by_cases hv : s.rewardVaultSet = false
      · rw [if_pos hv] at h2; cases h2
      · rw [if_neg hv] at h2
        simp only [Option.some.injEq, Prod.mk.injEq] at h2
        exact ⟨h2.1.symm, Or.inr ⟨b, hb, rfl, h2.2.symm⟩⟩

/-- Witness for C9 at the initial state, where the computed balance is 0 and
no transfer is emitted. -/
theorem sync_frame_witness :
    initialState = initialState ∧
    ((computeRewardBalanceOfStakingPoolMember initialState 0 = some 0 ∧ (none : Option ℕ) = none) ∨
     (∃ b, b ≠ 0 ∧ computeRewardBalanceOfStakingPoolMember initialState 0 = some b ∧
           (none : Option ℕ) = some b)) :=
  sync_frame initialState 0 initialState none rfl

/-- C10: both core operations are total Lean functions (they are defined by
structural pattern matching, with bounded work), and their behavior for a
member is independent of every other member's record: overwriting any other
member's stake record changes neither the computed balance nor the
settlement outcome for this member, so no step depends on the number of
pool members. -/
theorem compute_and_sync_member_independent (s : State) (member other : ℕ)
    (r : StoredStakeBalance) (h : other ≠ member) :
    computeRewardBalanceOfStakingPoolMember
        { s with delegatedStakeToPoolByOwner :=
            Function.update s.delegatedStakeToPoolByOwner other r } member
      = computeRewardBalanceOfStakingPoolMember s member ∧
    (syncRewardBalanceOfStakingPoolMember
        { s with delegatedStakeToPoolByOwner :=
            Function.update s.delegatedStakeToPoolByOwner other r } member).map Prod.snd
      = (syncRewardBalanceOfStakingPoolMember s member).map Prod.snd := by
  have hrec : Function.update s.delegatedStakeToPoolByOwner other r member
      = s.delegatedStakeToPoolByOwner member :=
    Function.update_noteq (show member ≠ other from fun hm => h hm.symm) r
      s.delegatedStakeToPoolByOwner
  have hcomp : computeRewardBalanceOfStakingPoolMember
      { s with delegatedStakeToPoolByOwner :=
          Function.update s.delegatedStakeToPoolByOwner other r } member
      = computeRewardBalanceOfStakingPoolMember s member := by
    unfold computeRewardBalanceOfStakingPoolMember
    rw [show ({ s with delegatedStakeToPoolByOwner :=
          Function.update s.delegatedStakeToPoolByOwner other r } : State).delegatedStakeToPoolByOwner member
        = s.delegatedStakeToPoolByOwner member from hrec]
  refine ⟨hcomp, ?_⟩
  unfold syncRewardBalanceOfStakingPoolMember
  rw [hcomp]
  cases computeRewardBalanceOfStakingPoolMember s member with
  | none => rfl
  | some b =>
    by_cases hb : b = 0
    · subst hb; rfl
    · simp only [if_neg hb]
      by_cases hv : s.rewardVaultSet = false
      · simp only [hv, if_pos rfl]; rfl
      · simp only [if_neg hv]; rfl

/-- Witness for C10: at the initial state, changing member 1's record does
not affect member 0's computed balance or settlement outcome. -/
theorem compute_and_sync_member_independent_witness :
    computeRewardBalanceOfStakingPoolMember
        { initialState with delegatedStakeToPoolByOwner := Function.update initialState.delegatedStakeToPoolByOwner 1 ⟨1, 2, 3⟩ } 0
      = computeRewardBalanceOfStakingPoolMember initialState 0 ∧
    (syncRewardBalanceOfStakingPoolMember
        { initialState with delegatedStakeToPoolByOwner := Function.update initialState.delegatedStakeToPoolByOwner 1 ⟨1, 2, 3⟩ } 0).map Prod.snd
      = (syncRewardBalanceOfStakingPoolMember initialState 0).map Prod.snd :=
  compute_and_sync_member_independent initialState 0 1 ⟨1, 2, 3⟩ (by decide)

/-- C7 as stated is false: at `cexState` all snapshots read by the
computation are set (denominators 1), yet the computed reward is
2^256 - 1 while the exact rational reward is -1 — the wrap-around of the
raw subtraction overpays when the stored cumulative ratios decrease. -/
theorem truncation_overpays_on_decreasing_ratios :
    computeRewardBalanceOfStakingPoolMember cexState 0 = some (2 ^ 256 - 1) ∧
    ¬ (((2 ^ 256 - 1 : ℕ) : ℚ) ≤
        exactRewardQ cexState.currentEpoch (cexState.delegatedStakeToPoolByOwner 0)
          cexState.rewardRatioSums) := by
  constructor
  · rfl
  · have hx : exactRewardQ cexState.currentEpoch (cexState.delegatedStakeToPoolByOwner 0)
        cexState.rewardRatioSums = -1 := by
      norm_num [exactRewardQ, cexState, wsub, WORD]
    rw [hx, not_le]
    exact lt_of_lt_of_le (by norm_num) (Nat.cast_nonneg _)

/-- The wrapped difference of the reductions of `X` and `Y` modulo 2^256 is
bounded by the true difference whenever `Y ≤ X`. -/
theorem wsub_mod_le {X Y : ℕ} (h : Y ≤ X) : wsub (X % WORD) (Y % WORD) ≤ X - Y := by
  have hW : 0 < WORD := by unfold WORD; positivity
  have hmm : wsub (X % WORD) (Y % WORD) = (X % WORD + (WORD - Y % WORD)) % WORD := by
    unfold wsub
    rw [Nat.mod_mod_of_dvd _ dvd_rfl, Nat.mod_mod_of_dvd _ dvd_rfl]
  have key : (X % WORD + (WORD - Y % WORD)) % WORD = (X - Y) % WORD := by
    rw [Nat.mod_add_mod]
    have h6 : X + (WORD - Y % WORD) = (X - Y) + WORD * (Y / WORD + 1) := by
      have h3 := Nat.div_add_mod Y WORD
      have h4 : Y % WORD < WORD := Nat.mod_lt _ hW
      rw [Nat.mul_add, Nat.mul_one]
      generalize WORD * (Y / WORD) = a at h3
      generalize Y % WORD = r at h3 h4 ⊢
      omega
    rw [h6, Nat.add_mul_mod_self_left]
  rw [hmm, key]
  exact Nat.mod_le _ _

/-- One leg of the computation is bounded by the exact rational contribution
of that leg, provided both snapshots are set and the cumulative ratio does
not decrease across the leg. -/
theorem legReward_le_exact {stake v : ℕ} {beginRatio endRatio : ND}
    (hb : beginRatio.denominator ≠ 0) (he : endRatio.denominator ≠ 0)
    (hmono : beginRatio.numerator * endRatio.denominator ≤
             endRatio.numerator * beginRatio.denominator)
    (hleg : legReward stake beginRatio endRatio = some v) :
    (v : ℚ) ≤ (stake : ℚ) *
      ((endRatio.numerator : ℚ) / endRatio.denominator
        - (beginRatio.numerator : ℚ) / beginRatio.denominator) := by
  unfold legReward at hleg
  rw [if_neg (by push_neg; exact ⟨hb, he⟩)] at hleg
  have hv := (Option.some.inj hleg).symm
  subst hv
  have h1 : wsub (wmul endRatio.numerator beginRatio.denominator)
        (wmul beginRatio.numerator endRatio.denominator)
      ≤ endRatio.numerator * beginRatio.denominator
        - beginRatio.numerator * endRatio.denominator := by
    unfold wmul
    exact wsub_mod_le hmono
  have h3 : wmul stake (wsub (wmul endRatio.numerator beginRatio.denominator)
        (wmul beginRatio.numerator endRatio.denominator) / beginRatio.denominator)
      ≤ stake * ((endRatio.numerator * beginRatio.denominator
            - beginRatio.numerator * endRatio.denominator) / beginRatio.denominator) :=
    le_trans (Nat.mod_le _ _) (Nat.mul_le_mul_left stake (Nat.div_le_div_right h1))
  have h4 : stake * ((endRatio.numerator * beginRatio.denominator
        - beginRatio.numerator * endRatio.denominator) / beginRatio.denominator)
      ≤ stake * (endRatio.numerator * beginRatio.denominator
          - beginRatio.numerator * endRatio.denominator) / beginRatio.denominator :=
    Nat.mul_div_le_mul_div_assoc _ _ _
  have h5 : wmul stake (wsub (wmul endRatio.numerator beginRatio.denominator)
        (wmul beginRatio.numerator endRatio.denominator) / beginRatio.denominator)
        / endRatio.denominator
      ≤ stake * (endRatio.numerator * beginRatio.denominator
          - beginRatio.numerator * endRatio.denominator)
        / (beginRatio.denominator * endRatio.denominator) := by
    rw [← Nat.div_div_eq_div_mul]
    exact Nat.div_le_div_right (le_trans h3 h4)
  have hbq : ((beginRatio.denominator : ℕ) : ℚ) ≠ 0 := Nat.cast_ne_zero.mpr hb
  have heq : ((endRatio.denominator : ℕ) : ℚ) ≠ 0 := Nat.cast_ne_zero.mpr he
  have hfinal : ((stake * (endRatio.numerator * beginRatio.denominator
        - beginRatio.numerator * endRatio.denominator) : ℕ) : ℚ)
        / ((beginRatio.denominator * endRatio.denominator : ℕ) : ℚ)
      = (stake : ℚ) *
        ((endRatio.numerator : ℚ) / endRatio.denominator
          - (beginRatio.numerator : ℚ) / beginRatio.denominator) := by
    push_cast [hmono]
    field_simp
    ring
  exact le_trans (Nat.cast_le.mpr h5) (le_trans Nat.cast_div_le (le_of_eq hfinal))

/-- A leg with both snapshots set (nonzero denominators) never reverts. -/
theorem legReward_ne_none {stake : ℕ} {beginRatio endRatio : ND}
    (hb : beginRatio.denominator ≠ 0) (he : endRatio.denominator ≠ 0) :
    legReward stake beginRatio endRatio ≠ none := by
  unfold legReward
  rw [if_neg (by push_neg; exact ⟨hb, he⟩)]
  exact Option.some_ne_none _

/-- C7 amended: whenever the three ratio snapshots the computation reads are
set (nonzero stored denominators) and the cumulative ratio does not decrease
across either leg, the computed reward is bounded by the exact
rational-arithmetic reward — truncation and wrapping only ever under-pay the
member. -/
theorem compute_le_exact_of_monotone_ratios (currentEpoch : ℕ)
    (d : StoredStakeBalance) (L : ℕ → ND) (r : ℕ)
    (hb1 : (L (wsub d.lastStored 1)).denominator ≠ 0)
    (he1 : (L d.lastStored).denominator ≠ 0)
    (he2 : (L (currentEpoch - 1)).denominator ≠ 0)
    (hm1 : (L (wsub d.lastStored 1)).numerator * (L d.lastStored).denominator ≤
           (L d.lastStored).numerator * (L (wsub d.lastStored 1)).denominator)
    (hm2 : (L d.lastStored).numerator * (L (currentEpoch - 1)).denominator ≤
           (L (currentEpoch - 1)).numerator * (L d.lastStored).denominator)
    (h : computeCore currentEpoch d L = some r) :
    (r : ℚ) ≤ exactRewardQ currentEpoch d L := by
  have hb1q : (0 : ℚ) < ((L (wsub d.lastStored 1)).denominator : ℚ) := by
    exact_mod_cast Nat.pos_of_ne_zero hb1
  have he1q : (0 : ℚ) < ((L d.lastStored).denominator : ℚ) := by
    exact_mod_cast Nat.pos_of_ne_zero he1
  have he2q : (0 : ℚ) < ((L (currentEpoch - 1)).denominator : ℚ) := by
    exact_mod_cast Nat.pos_of_ne_zero he2
  have hd1 : (0 : ℚ) ≤ ((L d.lastStored).numerator : ℚ) / ((L d.lastStored).denominator : ℚ)
      - ((L (wsub d.lastStored 1)).numerator : ℚ) / ((L (wsub d.lastStored 1)).denominator : ℚ) := by
    rw [sub_nonneg, div_le_div_iff₀ hb1q he1q]
    exact_mod_cast hm1
  have hd2 : (0 : ℚ) ≤ ((L (currentEpoch - 1)).numerator : ℚ) / ((L (currentEpoch - 1)).denominator : ℚ)
      - ((L d.lastStored).numerator : ℚ) / ((L d.lastStored).denominator : ℚ) := by
    rw [sub_nonneg, div_le_div_iff₀ he1q he2q]
    exact_mod_cast hm2
  unfold computeCore at h
  by_cases hguard : currentEpoch = 0 ∨ d.lastStored = currentEpoch
  · rw [if_pos hguard] at h
    have hr : 0 = r := Option.some.inj h
    rw [← hr, Nat.cast_zero]
    unfold exactRewardQ
    exact add_nonneg (mul_nonneg (Nat.cast_nonneg _) hd1)
      (mul_nonneg (Nat.cast_nonneg _) hd2)
  · rw [if_neg hguard] at h
    by_cases hc : d.current ≠ 0
    · rw [if_pos hc] at h
      cases hleg1 : legReward d.current (L (wsub d.lastStored 1)) (L d.lastStored) with
      | none => exact absurd hleg1 (legReward_ne_none hb1 he1)
      | some v1 =>
        cases hleg2 : legReward d.next (L d.lastStored) (L (currentEpoch - 1)) with
        | none => exact absurd hleg2 (legReward_ne_none he1 he2)
        | some v2 =>
          rw [hleg1, hleg2] at h
          have h2 : some (wadd v1 v2) = some r := h
          have hr : wadd v1 v2 = r := Option.some.inj h2
          rw [← hr]
          have b1 := legReward_le_exact hb1 he1 hm1 hleg1
          have b2 := legReward_le_exact he1 he2 hm2 hleg2
          have hw : ((wadd v1 v2 : ℕ) : ℚ) ≤ ((v1 + v2 : ℕ) : ℚ) :=
            Nat.cast_le.mpr (Nat.mod_le _ _)
          refine le_trans hw ?_
      
          rw [Nat.cast_add]
          exact le_trans (add_le_add b1 b2) (le_of_eq rfl)
    · push_neg at hc
      rw [if_neg (not_not_intro hc)] at h
      cases hleg2 : legReward d.next (L d.lastStored) (L (currentEpoch - 1)) with
      | none => exact absurd hleg2 (legReward_ne_none he1 he2)
      | some v2 =>
        rw [hleg2] at h
        have h2 : some (wadd 0 v2) = some r := h
        have hr : wadd 0 v2 = r := Option.some.inj h2
        rw [← hr]
        have b2 := legReward_le_exact he1 he2 hm2 hleg2
        have hw : ((wadd 0 v2 : ℕ) : ℚ) ≤ ((v2 : ℕ) : ℚ) := by
          refine Nat.cast_le.mpr ?_
          have h3 := Nat.mod_le (0 + v2) WORD
          simpa [wadd] using h3
        refine le_trans hw (le_trans b2 ?_)
        unfold exactRewardQ
        rw [hc, Nat.cast_zero, zero_mul, zero_add]

/-- Witness for the amended C7 at `scenarioState`: there the computed reward
1000 equals the exact rational reward 100 * (10 - 0), so the bound holds
with equality. -/
theorem compute_le_exact_of_monotone_ratios_witness :
    ((1000 : ℕ) : ℚ) ≤ exactRewardQ scenarioState.currentEpoch
      (scenarioState.delegatedStakeToPoolByOwner 0) scenarioState.rewardRatioSums :=
  compute_le_exact_of_monotone_ratios scenarioState.currentEpoch
    (scenarioState.delegatedStakeToPoolByOwner 0) scenarioState.rewardRatioSums 1000
    (by decide) (by decide) (by decide) (by decide) (by decide) rfl
